import Mathlib

/-!
Verification of the logo-processing pipeline (process_logo.py): an RGBA image
is loaded, every pixel whose R, G and B channels are all below a fixed
threshold (15) is replaced by transparent black (0,0,0,0), the image is
cropped to the bounding box of the pixels that are not exactly (0,0,0,0),
and the result is saved as a PNG.

The pixel grid is embedded as a flat row-major list of RGBA pixels together
with a width and a height, mirroring PIL's getdata/putdata view of the image.
The PIL library calls that the script relies on (getbbox, crop, convert,
open, save) are not part of the repository; they are modelled from the
behaviour the specification describes for them.
-/

namespace ProcessLogo

/-- One RGBA pixel: four 8-bit channels (values kept as Nat; the pipeline
never produces values outside 0..255 from in-range inputs). -/
structure Pixel where
  r : Nat
  g : Nat
  b : Nat
  a : Nat
deriving DecidableEq, Repr

/-- The fully transparent black pixel (0,0,0,0). -/
def zeroPixel : Pixel := ⟨0, 0, 0, 0⟩

/-- An image buffer: width, height, and the row-major flat list of pixels,
exactly the view `img.getdata()` exposes in the script. -/
structure Img where
  width : Nat
  height : Nat
  data : List Pixel
deriving DecidableEq, Repr

/-- The fixed darkness threshold of the script (`threshold = 15`). -/
def threshold : Nat := 15

/-- The body of the per-pixel loop of the script: if R, G and B are all
strictly below the threshold the pixel becomes (0,0,0,0), otherwise it is
kept unchanged (its alpha is not consulted). -/
def thresholdPixel (p : Pixel) : Pixel :=
  if p.r < threshold ∧ p.g < threshold ∧ p.b < threshold then zeroPixel else p

/-- The threshold pass (`for item in datas: ... img.putdata(new_data)`):
the per-pixel map applied to the whole buffer; dimensions are unchanged. -/
def thresholdImg (img : Img) : Img :=
  { img with data := img.data.map thresholdPixel }

/-- Pixel access at column `x`, row `y` of the row-major buffer; out-of-range
reads give (0,0,0,0), which is also what PIL's crop pads with outside the
source image. -/
def getpx (img : Img) (x y : Nat) : Pixel :=
  img.data.getD (y * img.width + x) zeroPixel

/-- Modelled from the spec: a pixel counts as content for the bounding box
exactly when it is not exactly (0,0,0,0) — it is excluded only if ALL four
channels are zero. -/
def isContent (p : Pixel) : Bool := p ≠ zeroPixel

/-- All coordinates (x, y) of the image grid, x < width and y < height. -/
def coords (img : Img) : List (Nat × Nat) :=
  (List.range img.height).flatMap (fun y => (List.range img.width).map (fun x => (x, y)))

/-- The coordinates holding a content pixel (one that is not (0,0,0,0)). -/
def contentCoords (img : Img) : List (Nat × Nat) :=
  (coords img).filter (fun c => isContent (getpx img c.1 c.2))

/-- `(x, y)` is a valid coordinate holding a content pixel. -/
def contentAt (img : Img) (x y : Nat) : Prop :=
  x < img.width ∧ y < img.height ∧ isContent (getpx img x y) = true

instance (img : Img) (x y : Nat) : Decidable (contentAt img x y) := by
  unfold contentAt; infer_instance

/-- Modelled from the spec: PIL's `img.getbbox()` as the spec describes it —
the bounding box (left, top, right, bottom), right and bottom exclusive, of
all pixels that are not exactly (0,0,0,0); `none` when there is no such
pixel. -/
def getbbox (img : Img) : Option (Nat × Nat × Nat × Nat) :=
  match ((contentCoords img).map Prod.fst).min?, ((contentCoords img).map Prod.snd).min?,
        ((contentCoords img).map Prod.fst).max?, ((contentCoords img).map Prod.snd).max? with
  | some l, some t, some r, some b => some (l, t, r + 1, b + 1)
  | _, _, _, _ => none

/-- A `h × w` grid laid out row-major as a flat list, pixel (x, y) holding
`f x y`. -/
def mkGrid (w h : Nat) (f : Nat → Nat → Pixel) : List Pixel :=
  (List.range h).flatMap (fun y => (List.range w).map (fun x => f x y))

/-- Modelled from the spec: PIL's `img.crop((l, t, r, b))` — the sub-rectangle
with left/top inclusive and right/bottom exclusive, reading (0,0,0,0) outside
the source buffer. -/
def crop (img : Img) (l t r b : Nat) : Img :=
  { width := r - l, height := b - t,
    data := mkGrid (r - l) (b - t) (fun x y => getpx img (l + x) (t + y)) }

/-- The in-memory pipeline of the script between load and save: threshold
every pixel, then crop to the content bounding box when one exists
(`if bbox: img = img.crop(bbox)`), otherwise keep the buffer as is. -/
def processImg (img : Img) : Img :=
  match getbbox (thresholdImg img) with
  | some (l, t, r, b) => crop (thresholdImg img) l t r b
  | none => thresholdImg img

/-! ### Basic pixel and threshold lemmas -/

theorem thresholdPixel_zeroPixel : thresholdPixel zeroPixel = zeroPixel := by
  decide

theorem thresholdPixel_idem (p : Pixel) :
    thresholdPixel (thresholdPixel p) = thresholdPixel p := by
  unfold thresholdPixel
  split
  · decide
  · rfl

theorem getD_mem_or_eq (l : List Pixel) (n : Nat) (d : Pixel) :
    l.getD n d ∈ l ∨ l.getD n d = d := by
  rcases h : l[n]? with _ | p
  · right; simp [List.getD_eq_getElem?_getD, h]
  · left
    have hm : p ∈ l := List.getElem?_mem h
    simpa [List.getD_eq_getElem?_getD, h] using hm

theorem getD_map_thresholdPixel (l : List Pixel) (n : Nat) :
    (l.map thresholdPixel).getD n zeroPixel = thresholdPixel (l.getD n zeroPixel) := by
  rcases h : l[n]? with _ | p
  · simp [List.getD_eq_getElem?_getD, h, thresholdPixel_zeroPixel]
  · simp [List.getD_eq_getElem?_getD, h]

theorem getpx_thresholdImg (img : Img) (x y : Nat) :
    getpx (thresholdImg img) x y = thresholdPixel (getpx img x y) := by
  unfold getpx thresholdImg
  exact getD_map_thresholdPixel img.data (y * img.width + x)

theorem thresholdImg_width (img : Img) : (thresholdImg img).width = img.width := rfl

theorem thresholdImg_height (img : Img) : (thresholdImg img).height = img.height := rfl

theorem thresholdImg_fix (img : Img) (h : ∀ p ∈ img.data, thresholdPixel p = p) :
    thresholdImg img = img := by
  unfold thresholdImg
  have : img.data.map thresholdPixel = img.data := by
    calc img.data.map thresholdPixel = img.data.map id := List.map_congr_left h
    _ = img.data := List.map_id img.data
  rw [this]

/-! ### Grid lemmas: length, access, reconstruction -/

theorem mkGrid_zero (w : Nat) (f : Nat → Nat → Pixel) : mkGrid w 0 f = [] := rfl

theorem mkGrid_succ (w h : Nat) (f : Nat → Nat → Pixel) :
    mkGrid w (h + 1) f =
      ((List.range w).map (fun x => f x 0)) ++ mkGrid w h (fun x y => f x (y + 1)) := by
  unfold mkGrid
  rw [List.range_succ_eq_map, List.flatMap_cons, List.flatMap_map]

theorem length_mkGrid (w h : Nat) (f : Nat → Nat → Pixel) :
    (mkGrid w h f).length = h * w := by
  induction h generalizing f with
  | zero => simp [mkGrid_zero]
  | succ h ih =>
    rw [mkGrid_succ]
    simp only [List.length_append, List.length_map, List.length_range, ih]
    ring

theorem getD_mkGrid (w h x y : Nat) (f : Nat → Nat → Pixel) (hx : x < w) (hy : y < h) :
    (mkGrid w h f).getD (y * w + x) zeroPixel = f x y := by
  induction h generalizing f y with
  | zero => omega
  | succ h ih =>
    rw [mkGrid_succ]
    cases y with
    | zero =>
      rw [show 0 * w + x = x by omega]
      have hlt : x < ((List.range w).map (fun x => f x 0)).length := by
        simpa using hx
      rw [List.getD_eq_getElem?_getD, List.getElem?_append_left hlt]
      simp [List.getElem?_range hx]
    | succ y =>
      have hy' : y < h := Nat.lt_of_succ_lt_succ hy
      have hlen : ((List.range w).map (fun x => f x 0)).length = w := by simp
      have hge : ((List.range w).map (fun x => f x 0)).length ≤ (y + 1) * w + x := by
        simp only [hlen]; nlinarith
      rw [List.getD_eq_getElem?_getD, List.getElem?_append_right hge, hlen]
      rw [show (y + 1) * w + x - w = y * w + x by
        have : (y + 1) * w = y * w + w := by ring
        omega]
      have hrec := ih y (fun x y => f x (y + 1)) hy'
      rw [List.getD_eq_getElem?_getD] at hrec
      exact hrec

theorem row_map_getD (l : List Pixel) (w : Nat) (hw : w ≤ l.length) :
    (List.range w).map (fun x => l.getD x zeroPixel) = l.take w := by
  apply List.ext_getElem?
  intro n
  by_cases hn : n < w
  · have hnl : n < l.length := Nat.lt_of_lt_of_le hn hw
    rw [List.getElem?_map, List.getElem?_range hn, List.getElem?_take_of_lt hn,
      List.getElem?_eq_getElem hnl]
    simp [List.getD_eq_getElem?_getD, List.getElem?_eq_getElem hnl]
  · have h1 : ((List.range w).map (fun x => l.getD x zeroPixel))[n]? = none := by
      rw [List.getElem?_eq_none_iff]
      simpa using Nat.le_of_not_lt hn
    have h2 : (l.take w)[n]? = none := by
      rw [List.getElem?_eq_none_iff]
      simp only [List.length_take]
      omega
    rw [h1, h2]

theorem mkGrid_recon (w h : Nat) (l : List Pixel) (hl : l.length = h * w) :
    mkGrid w h (fun x y => l.getD (y * w + x) zeroPixel) = l := by
  induction h generalizing l with
  | zero =>
    rw [mkGrid_zero]
    exact (List.length_eq_zero.mp (by omega)).symm
  | succ h ih =>
    rw [mkGrid_succ]
    have h1 : (List.range w).map (fun x => l.getD (0 * w + x) zeroPixel) = l.take w := by
      have hc : (List.range w).map (fun x => l.getD (0 * w + x) zeroPixel) =
          (List.range w).map (fun x => l.getD x zeroPixel) :=
        List.map_congr_left (fun x _ => by rw [show 0 * w + x = x by omega])
      rw [hc]
      exact row_map_getD l w (by nlinarith)
    have h2 : mkGrid w h (fun x y => l.getD ((y + 1) * w + x) zeroPixel) = l.drop w := by
      have hfun : (fun x y => l.getD ((y + 1) * w + x) zeroPixel) =
          (fun x y => (l.drop w).getD (y * w + x) zeroPixel) := by
        funext x y
        rw [List.getD_eq_getElem?_getD, List.getD_eq_getElem?_getD, List.getElem?_drop,
          show w + (y * w + x) = (y + 1) * w + x by ring]
      rw [hfun]
      refine ih (l.drop w) ?_
      simp only [List.length_drop]
      have hs : (h + 1) * w = h * w + w := by ring
      omega
    rw [h1, h2, List.take_append_drop]

theorem mem_mkGrid (w h : Nat) (f : Nat → Nat → Pixel) (p : Pixel) :
    p ∈ mkGrid w h f ↔ ∃ x y, x < w ∧ y < h ∧ p = f x y := by
  unfold mkGrid
  simp only [List.mem_flatMap, List.mem_map, List.mem_range]
  constructor
  · rintro ⟨y, hy, x, hx, rfl⟩
    exact ⟨x, y, hx, hy, rfl⟩
  · rintro ⟨x, y, hx, hy, rfl⟩
    exact ⟨y, hy, x, hx, rfl⟩

/-! ### Coordinate and bounding-box lemmas -/

theorem mem_coords (img : Img) (x y : Nat) :
    (x, y) ∈ coords img ↔ x < img.width ∧ y < img.height := by
  unfold coords
  simp only [List.mem_flatMap, List.mem_map, List.mem_range, Prod.mk.injEq]
  constructor
  · rintro ⟨y', hy', x', hx', rfl, rfl⟩
    exact ⟨hx', hy'⟩
  · rintro ⟨hx, hy⟩
    exact ⟨y, hy, x, hx, rfl, rfl⟩

theorem mem_contentCoords (img : Img) (x y : Nat) :
    (x, y) ∈ contentCoords img ↔ contentAt img x y := by
  unfold contentCoords contentAt
  rw [List.mem_filter, mem_coords]
  simp [and_assoc]

theorem getbbox_eq_none (img : Img) (h : contentCoords img = []) : getbbox img = none := by
  unfold getbbox
  rw [h]
  rfl

theorem getbbox_isSome (img : Img) (x y : Nat) (h : contentAt img x y) :
    (getbbox img).isSome := by
  have hm : (x, y) ∈ contentCoords img := (mem_contentCoords img x y).mpr h
  have h1 : x ∈ (contentCoords img).map Prod.fst := List.mem_map.mpr ⟨(x, y), hm, rfl⟩
  have h2 : y ∈ (contentCoords img).map Prod.snd := List.mem_map.mpr ⟨(x, y), hm, rfl⟩
  obtain ⟨l, hl⟩ := Option.isSome_iff_exists.mp (List.isSome_min?_of_mem h1)
  obtain ⟨t, ht⟩ := Option.isSome_iff_exists.mp (List.isSome_min?_of_mem h2)
  obtain ⟨r, hr⟩ := Option.isSome_iff_exists.mp (List.isSome_max?_of_mem h1)
  obtain ⟨b, hb⟩ := Option.isSome_iff_exists.mp (List.isSome_max?_of_mem h2)
  unfold getbbox
  rw [hl, ht, hr, hb]
  rfl

theorem getbbox_eq_some_iff (img : Img) (l t r b : Nat) :
    getbbox img = some (l, t, r, b) ↔
      ∃ R B, r = R + 1 ∧ b = B + 1 ∧
        (∃ y, contentAt img l y) ∧ (∃ y, contentAt img R y) ∧
        (∃ x, contentAt img x t) ∧ (∃ x, contentAt img x B) ∧
        (∀ x y, contentAt img x y → l ≤ x ∧ x ≤ R ∧ t ≤ y ∧ y ≤ B) := by
  constructor
  · intro h
    unfold getbbox at h
    split at h
    · next l' t' r' b' hl ht hr hb =>
      rw [Option.some.injEq, Prod.mk.injEq, Prod.mk.injEq, Prod.mk.injEq] at h
      obtain ⟨rfl, rfl, rfl, rfl⟩ := h
      obtain ⟨hlm, hlle⟩ := List.min?_eq_some_iff'.mp hl
      obtain ⟨htm, htle⟩ := List.min?_eq_some_iff'.mp ht
      obtain ⟨hrm, hrge⟩ := List.max?_eq_some_iff'.mp hr
      obtain ⟨hbm, hbge⟩ := List.max?_eq_some_iff'.mp hb
      refine ⟨r', b', rfl, rfl, ?_, ?_, ?_, ?_, ?_⟩
      · obtain ⟨⟨cx, cy⟩, hmem, hfst⟩ := List.mem_map.mp hlm
        subst hfst
        exact ⟨cy, (mem_contentCoords img cx cy).mp hmem⟩
      · obtain ⟨⟨cx, cy⟩, hmem, hfst⟩ := List.mem_map.mp hrm
        subst hfst
        exact ⟨cy, (mem_contentCoords img cx cy).mp hmem⟩
      · obtain ⟨⟨cx, cy⟩, hmem, hsnd⟩ := List.mem_map.mp htm
        subst hsnd
        exact ⟨cx, (mem_contentCoords img cx cy).mp hmem⟩
      · obtain ⟨⟨cx, cy⟩, hmem, hsnd⟩ := List.mem_map.mp hbm
        subst hsnd
        exact ⟨cx, (mem_contentCoords img cx cy).mp hmem⟩
      · intro x y hc
        have hmem : (x, y) ∈ contentCoords img := (mem_contentCoords img x y).mpr hc
        have hxm : x ∈ (contentCoords img).map Prod.fst := List.mem_map.mpr ⟨(x, y), hmem, rfl⟩
        have hym : y ∈ (contentCoords img).map Prod.snd := List.mem_map.mpr ⟨(x, y), hmem, rfl⟩
        exact ⟨hlle x hxm, hrge x hxm, htle y hym, hbge y hym⟩
    · exact absurd h (by simp)
  · rintro ⟨R, B, rfl, rfl, ⟨y₁, hy₁⟩, ⟨y₂, hy₂⟩, ⟨x₁, hx₁⟩, ⟨x₂, hx₂⟩, hbound⟩
    have hminl : ((contentCoords img).map Prod.fst).min? = some l := by
      rw [List.min?_eq_some_iff']
      refine ⟨List.mem_map.mpr ⟨(l, y₁), (mem_contentCoords img l y₁).mpr hy₁, rfl⟩, ?_⟩
      intro c hc
      obtain ⟨⟨cx, cy⟩, hmem, hfst⟩ := List.mem_map.mp hc
      subst hfst
      exact (hbound cx cy ((mem_contentCoords img cx cy).mp hmem)).1
    have hmaxr : ((contentCoords img).map Prod.fst).max? = some R := by
      rw [List.max?_eq_some_iff']
      refine ⟨List.mem_map.mpr ⟨(R, y₂), (mem_contentCoords img R y₂).mpr hy₂, rfl⟩, ?_⟩
      intro c hc
      obtain ⟨⟨cx, cy⟩, hmem, hfst⟩ := List.mem_map.mp hc
      subst hfst
      exact (hbound cx cy ((mem_contentCoords img cx cy).mp hmem)).2.1
    have hmint : ((contentCoords img).map Prod.snd).min? = some t := by
      rw [List.min?_eq_some_iff']
      refine ⟨List.mem_map.mpr ⟨(x₁, t), (mem_contentCoords img x₁ t).mpr hx₁, rfl⟩, ?_⟩
      intro c hc
      obtain ⟨⟨cx, cy⟩, hmem, hsnd⟩ := List.mem_map.mp hc
      subst hsnd
      exact (hbound cx cy ((mem_contentCoords img cx cy).mp hmem)).2.2.1
    have hmaxb : ((contentCoords img).map Prod.snd).max? = some B := by
      rw [List.max?_eq_some_iff']
      refine ⟨List.mem_map.mpr ⟨(x₂, B), (mem_contentCoords img x₂ B).mpr hx₂, rfl⟩, ?_⟩
      intro c hc
      obtain ⟨⟨cx, cy⟩, hmem, hsnd⟩ := List.mem_map.mp hc
      subst hsnd
      exact (hbound cx cy ((mem_contentCoords img cx cy).mp hmem)).2.2.2
    unfold getbbox
    rw [hminl, hmint, hmaxr, hmaxb]

/-! ### Pipeline lemmas -/

theorem isContent_iff (p : Pixel) : isContent p = true ↔ p ≠ zeroPixel := by
  unfold isContent
  exact decide_eq_true_iff

theorem getpx_crop (img : Img) (l t r b x y : Nat) (hx : x < r - l) (hy : y < b - t) :
    getpx (crop img l t r b) x y = getpx img (l + x) (t + y) := by
  unfold getpx crop
  exact getD_mkGrid (r - l) (b - t) x y _ hx hy

theorem processImg_eq_of_none (img : Img) (h : getbbox (thresholdImg img) = none) :
    processImg img = thresholdImg img := by
  unfold processImg
  rw [h]

theorem processImg_eq_of_some (img : Img) (l t r b : Nat)
    (h : getbbox (thresholdImg img) = some (l, t, r, b)) :
    processImg img = crop (thresholdImg img) l t r b := by
  unfold processImg
  rw [h]

theorem processImg_data_fix (img : Img) (p : Pixel) (hp : p ∈ (processImg img).data) :
    thresholdPixel p = p := by
  rcases h : getbbox (thresholdImg img) with _ | ⟨l, t, r, b⟩
  · rw [processImg_eq_of_none img h] at hp
    rw [show (thresholdImg img).data = img.data.map thresholdPixel from rfl] at hp
    obtain ⟨q, _, hqe⟩ := List.mem_map.mp hp
    rw [← hqe]
    exact thresholdPixel_idem q
  · rw [processImg_eq_of_some img l t r b h] at hp
    rw [show (crop (thresholdImg img) l t r b).data =
        mkGrid (r - l) (b - t) (fun x y => getpx (thresholdImg img) (l + x) (t + y))
      from rfl] at hp
    obtain ⟨x, y, hx, hy, rfl⟩ := (mem_mkGrid _ _ _ p).mp hp
    rw [getpx_thresholdImg]
    exact thresholdPixel_idem _

theorem crop_full (img : Img) (hwf : img.data.length = img.height * img.width) :
    crop img 0 0 img.width img.height = img := by
  unfold crop
  have hfun : (fun x y => getpx img (0 + x) (0 + y)) =
      (fun x y => img.data.getD (y * img.width + x) zeroPixel) := by
    funext x y
    rw [Nat.zero_add, Nat.zero_add]
    rfl
  rw [Nat.sub_zero, Nat.sub_zero, hfun, mkGrid_recon img.width img.height img.data hwf]

/-! ### Claim theorems -/

/-- Claim C1: Thresholder contract — for every pixel of the buffer, if its R, G
and B channels are all strictly below 15 the pre-crop pipeline replaces it with
exactly (0,0,0,0) regardless of its alpha; otherwise the pixel is left exactly
identical to its input; consequently every output pixel is either (0,0,0,0) or
equal to its input. -/
theorem threshold_contract (img : Img) (i : Nat) (h : i < img.data.length) :
    (((img.data.getD i zeroPixel).r < threshold ∧ (img.data.getD i zeroPixel).g < threshold ∧
        (img.data.getD i zeroPixel).b < threshold) →
      (thresholdImg img).data.getD i zeroPixel = zeroPixel) ∧
    (¬((img.data.getD i zeroPixel).r < threshold ∧ (img.data.getD i zeroPixel).g < threshold ∧
        (img.data.getD i zeroPixel).b < threshold) →
      (thresholdImg img).data.getD i zeroPixel = img.data.getD i zeroPixel) ∧
    ((thresholdImg img).data.getD i zeroPixel = zeroPixel ∨
      (thresholdImg img).data.getD i zeroPixel = img.data.getD i zeroPixel) := by
  have hmap : (thresholdImg img).data.getD i zeroPixel =
      thresholdPixel (img.data.getD i zeroPixel) :=
    getD_map_thresholdPixel img.data i
  refine ⟨?_, ?_, ?_⟩
  · intro hc
    rw [hmap]
    unfold thresholdPixel
    rw [if_pos hc]
  · intro hc
    rw [hmap]
    unfold thresholdPixel
    rw [if_neg hc]
  · rw [hmap]
    unfold thresholdPixel
    split
    · left; rfl
    · right; rfl

/-- Witness for C1 at a concrete two-pixel buffer and index 0. -/
theorem threshold_contract_witness :
    0 < (Img.mk 2 1 [⟨10, 10, 10, 200⟩, ⟨100, 0, 0, 0⟩]).data.length ∧
    ((((Img.mk 2 1 [⟨10, 10, 10, 200⟩, ⟨100, 0, 0, 0⟩]).data.getD 0 zeroPixel).r < threshold ∧
        ((Img.mk 2 1 [⟨10, 10, 10, 200⟩, ⟨100, 0, 0, 0⟩]).data.getD 0 zeroPixel).g < threshold ∧
        ((Img.mk 2 1 [⟨10, 10, 10, 200⟩, ⟨100, 0, 0, 0⟩]).data.getD 0 zeroPixel).b < threshold →
      (thresholdImg (Img.mk 2 1 [⟨10, 10, 10, 200⟩, ⟨100, 0, 0, 0⟩])).data.getD 0 zeroPixel =
        zeroPixel) ∧
    (¬(((Img.mk 2 1 [⟨10, 10, 10, 200⟩, ⟨100, 0, 0, 0⟩]).data.getD 0 zeroPixel).r < threshold ∧
        ((Img.mk 2 1 [⟨10, 10, 10, 200⟩, ⟨100, 0, 0, 0⟩]).data.getD 0 zeroPixel).g < threshold ∧
        ((Img.mk 2 1 [⟨10, 10, 10, 200⟩, ⟨100, 0, 0, 0⟩]).data.getD 0 zeroPixel).b < threshold) →
      (thresholdImg (Img.mk 2 1 [⟨10, 10, 10, 200⟩, ⟨100, 0, 0, 0⟩])).data.getD 0 zeroPixel =
        (Img.mk 2 1 [⟨10, 10, 10, 200⟩, ⟨100, 0, 0, 0⟩]).data.getD 0 zeroPixel) ∧
    ((thresholdImg (Img.mk 2 1 [⟨10, 10, 10, 200⟩, ⟨100, 0, 0, 0⟩])).data.getD 0 zeroPixel =
        zeroPixel ∨
      (thresholdImg (Img.mk 2 1 [⟨10, 10, 10, 200⟩, ⟨100, 0, 0, 0⟩])).data.getD 0 zeroPixel =
        (Img.mk 2 1 [⟨10, 10, 10, 200⟩, ⟨100, 0, 0, 0⟩]).data.getD 0 zeroPixel)) :=
  ⟨by decide, threshold_contract (Img.mk 2 1 [⟨10, 10, 10, 200⟩, ⟨100, 0, 0, 0⟩]) 0 (by decide)⟩

/-- Claim C5: all-transparent no-op branch — when every pixel has R, G and B
all strictly below 15, the thresholded buffer has no bounding box, no crop is
performed, and the output keeps the original dimensions with every pixel
exactly (0,0,0,0). -/
theorem all_black_noop (img : Img)
    (hb : ∀ p ∈ img.data, p.r < threshold ∧ p.g < threshold ∧ p.b < threshold) :
    getbbox (thresholdImg img) = none ∧
    processImg img = thresholdImg img ∧
    (processImg img).width = img.width ∧
    (processImg img).height = img.height ∧
    ∀ p ∈ (processImg img).data, p = zeroPixel := by
  have hzero : ∀ p ∈ (thresholdImg img).data, p = zeroPixel := by
    intro p hp
    rw [show (thresholdImg img).data = img.data.map thresholdPixel from rfl] at hp
    obtain ⟨q, hq, hqe⟩ := List.mem_map.mp hp
    rw [← hqe]
    unfold thresholdPixel
    rw [if_pos (hb q hq)]
  have hcc : contentCoords (thresholdImg img) = [] := by
    unfold contentCoords
    rw [List.filter_eq_nil_iff]
    intro c _
    have hz : getpx (thresholdImg img) c.1 c.2 = zeroPixel := by
      unfold getpx
      rcases getD_mem_or_eq (thresholdImg img).data
          (c.2 * (thresholdImg img).width + c.1) zeroPixel with hm | he
      · exact hzero _ hm
      · exact he
    simp [hz, isContent]
  have hnone := getbbox_eq_none _ hcc
  have hproc := processImg_eq_of_none img hnone
  refine ⟨hnone, hproc, by rw [hproc]; rfl, by rw [hproc]; rfl, by rw [hproc]; exact hzero⟩

/-- Witness for C5 at a concrete all-dark one-pixel buffer. -/
theorem all_black_noop_witness :
    (∀ p ∈ (Img.mk 1 1 [⟨1, 2, 3, 250⟩]).data,
        p.r < threshold ∧ p.g < threshold ∧ p.b < threshold) ∧
    (getbbox (thresholdImg (Img.mk 1 1 [⟨1, 2, 3, 250⟩])) = none ∧
    processImg (Img.mk 1 1 [⟨1, 2, 3, 250⟩]) = thresholdImg (Img.mk 1 1 [⟨1, 2, 3, 250⟩]) ∧
    (processImg (Img.mk 1 1 [⟨1, 2, 3, 250⟩])).width = (Img.mk 1 1 [⟨1, 2, 3, 250⟩]).width ∧
    (processImg (Img.mk 1 1 [⟨1, 2, 3, 250⟩])).height = (Img.mk 1 1 [⟨1, 2, 3, 250⟩]).height ∧
    ∀ p ∈ (processImg (Img.mk 1 1 [⟨1, 2, 3, 250⟩])).data, p = zeroPixel) :=
  ⟨by decide, all_black_noop (Img.mk 1 1 [⟨1, 2, 3, 250⟩]) (by decide)⟩

/-- Claim C6: dimension invariant — for every input buffer the output buffer's
width and height are less than or equal to the input buffer's. -/
theorem output_dims_le (img : Img) :
    (processImg img).width ≤ img.width ∧ (processImg img).height ≤ img.height := by
  rcases h : getbbox (thresholdImg img) with _ | ⟨l, t, r, b⟩
  · rw [processImg_eq_of_none img h]
    exact ⟨Nat.le_refl _, Nat.le_refl _⟩
  · rw [processImg_eq_of_some img l t r b h]
    obtain ⟨R, B, hrR, hbB, _, hRy, _, hxB, _⟩ := (getbbox_eq_some_iff _ l t r b).mp h
    obtain ⟨y₂, hR⟩ := hRy
    obtain ⟨x₂, hB⟩ := hxB
    have hRW : R < img.width := hR.1
    have hBH : B < img.height := hB.2.1
    constructor
    · show r - l ≤ img.width
      omega
    · show b - t ≤ img.height
      omega

/-- Claim C3: no-black input identity — when every pixel of the (RGBA
normalized) buffer has at least one of R, G, B greater than or equal to 15,
the pipeline output is the input buffer itself: identical bytes and identical
dimensions; the crop does not shrink anything. -/
theorem no_black_identity (img : Img)
    (hwf : img.data.length = img.height * img.width)
    (hnb : ∀ p ∈ img.data, ¬(p.r < threshold ∧ p.g < threshold ∧ p.b < threshold)) :
    processImg img = img := by
  have hfix : thresholdImg img = img :=
    thresholdImg_fix img (fun p hp => by unfold thresholdPixel; rw [if_neg (hnb p hp)])
  by_cases hw : img.width = 0
  · have hcc : contentCoords img = [] := by
      simp [contentCoords, coords, hw]
    have hnone : getbbox (thresholdImg img) = none := by
      rw [hfix]
      exact getbbox_eq_none img hcc
    rw [processImg_eq_of_none img hnone, hfix]
  by_cases hh : img.height = 0
  · have hcc : contentCoords img = [] := by
      simp [contentCoords, coords, hh]
    have hnone : getbbox (thresholdImg img) = none := by
      rw [hfix]
      exact getbbox_eq_none img hcc
    rw [processImg_eq_of_none img hnone, hfix]
  have hwpos : 0 < img.width := Nat.pos_of_ne_zero hw
  have hhpos : 0 < img.height := Nat.pos_of_ne_zero hh
  have hall : ∀ x y, x < img.width → y < img.height → contentAt img x y := by
    intro x y hx hy
    refine ⟨hx, hy, ?_⟩
    have hidx : y * img.width + x < img.data.length := by
      rw [hwf]
      have h1 : (y + 1) * img.width ≤ img.height * img.width :=
        Nat.mul_le_mul_right _ (Nat.succ_le_of_lt hy)
      have h2 : (y + 1) * img.width = y * img.width + img.width := by ring
      omega
    have hmem : img.data.getD (y * img.width + x) zeroPixel ∈ img.data := by
      rw [List.getD_eq_getElem?_getD, List.getElem?_eq_getElem hidx]
      exact List.getElem_mem hidx
    rw [show getpx img x y = img.data.getD (y * img.width + x) zeroPixel from rfl,
      isContent_iff]
    intro hz
    have hch := hnb _ hmem
    rw [hz] at hch
    exact hch (by decide)
  have hbb : getbbox img = some (0, 0, img.width, img.height) := by
    rw [getbbox_eq_some_iff]
    refine ⟨img.width - 1, img.height - 1, by omega, by omega,
      ⟨0, hall 0 0 hwpos hhpos⟩, ⟨0, hall _ 0 (by omega) hhpos⟩,
      ⟨0, hall 0 0 hwpos hhpos⟩, ⟨0, hall 0 _ hwpos (by omega)⟩, ?_⟩
    intro x y hc
    have hx := hc.1
    have hy := hc.2.1
    exact ⟨Nat.zero_le _, by omega, Nat.zero_le _, by omega⟩
  have hsome : getbbox (thresholdImg img) = some (0, 0, img.width, img.height) := by
    rw [hfix]
    exact hbb
  rw [processImg_eq_of_some img 0 0 img.width img.height hsome, hfix]
  exact crop_full img hwf

/-- Witness for C3 at a concrete bright one-pixel buffer. -/
theorem no_black_identity_witness :
    ((Img.mk 1 1 [⟨20, 0, 0, 5⟩]).data.length =
        (Img.mk 1 1 [⟨20, 0, 0, 5⟩]).height * (Img.mk 1 1 [⟨20, 0, 0, 5⟩]).width) ∧
    (∀ p ∈ (Img.mk 1 1 [⟨20, 0, 0, 5⟩]).data,
        ¬(p.r < threshold ∧ p.g < threshold ∧ p.b < threshold)) ∧
    processImg (Img.mk 1 1 [⟨20, 0, 0, 5⟩]) = Img.mk 1 1 [⟨20, 0, 0, 5⟩] :=
  ⟨by decide, by decide,
    no_black_identity (Img.mk 1 1 [⟨20, 0, 0, 5⟩]) (by decide) (by decide)⟩

/-- Claim C2: crop correctness — whenever the thresholded buffer contains a
pixel that is not exactly (0,0,0,0), the pipeline crops to the bounding box:
every pixel outside the box is exactly (0,0,0,0), each of the four edges of
the box contains a content pixel, the box is minimal among rectangles
containing all content, and a pixel counts as content exactly when not all
four of its channels are zero. -/
theorem crop_correct (img : Img) (x₀ y₀ : Nat)
    (hc : contentAt (thresholdImg img) x₀ y₀) :
    ∃ l t r b, getbbox (thresholdImg img) = some (l, t, r, b) ∧
      processImg img = crop (thresholdImg img) l t r b ∧
      (∀ p : Pixel, isContent p = true ↔ p ≠ zeroPixel) ∧
      (∀ x y, x < img.width → y < img.height →
        ¬(l ≤ x ∧ x < r ∧ t ≤ y ∧ y < b) → getpx (thresholdImg img) x y = zeroPixel) ∧
      ((∃ y, contentAt (thresholdImg img) l y) ∧
        (∃ y, contentAt (thresholdImg img) (r - 1) y) ∧
        (∃ x, contentAt (thresholdImg img) x t) ∧
        (∃ x, contentAt (thresholdImg img) x (b - 1))) ∧
      (∀ l' t' r' b',
        (∀ x y, contentAt (thresholdImg img) x y → l' ≤ x ∧ x < r' ∧ t' ≤ y ∧ y < b') →
        l' ≤ l ∧ t' ≤ t ∧ r ≤ r' ∧ b ≤ b') := by
  obtain ⟨bb, hbb⟩ := Option.isSome_iff_exists.mp (getbbox_isSome _ x₀ y₀ hc)
  obtain ⟨l, t, r, b⟩ := bb
  obtain ⟨R, B, hrR, hbB, hl, hR, ht, hB, hbound⟩ :=
    (getbbox_eq_some_iff _ l t r b).mp hbb
  refine ⟨l, t, r, b, hbb, processImg_eq_of_some img l t r b hbb,
    fun p => isContent_iff p, ?_, ⟨hl, ?_, ht, ?_⟩, ?_⟩
  · intro x y hx hy hout
    by_contra hnz
    have hcxy : contentAt (thresholdImg img) x y := ⟨hx, hy, (isContent_iff _).mpr hnz⟩
    have hb4 := hbound x y hcxy
    omega
  · rw [show r - 1 = R by omega]
    exact hR
  · rw [show b - 1 = B by omega]
    exact hB
  · intro l' t' r' b' hcont
    obtain ⟨ya, hya⟩ := hl
    obtain ⟨yb, hyb⟩ := hR
    obtain ⟨xa, hxa⟩ := ht
    obtain ⟨xb, hxb⟩ := hB
    have h1 := hcont l ya hya
    have h2 := hcont R yb hyb
    have h3 := hcont xa t hxa
    have h4 := hcont xb B hxb
    omega

/-- Witness for C2 at a concrete 2×2 buffer whose bottom-right pixel survives
the threshold. -/
theorem crop_correct_witness :
    contentAt (thresholdImg (Img.mk 2 2 [⟨5, 5, 5, 9⟩, ⟨5, 5, 5, 9⟩, ⟨5, 5, 5, 9⟩,
        ⟨200, 10, 10, 255⟩])) 1 1 ∧
    (∃ l t r b,
      getbbox (thresholdImg (Img.mk 2 2 [⟨5, 5, 5, 9⟩, ⟨5, 5, 5, 9⟩, ⟨5, 5, 5, 9⟩,
          ⟨200, 10, 10, 255⟩])) = some (l, t, r, b) ∧
      processImg (Img.mk 2 2 [⟨5, 5, 5, 9⟩, ⟨5, 5, 5, 9⟩, ⟨5, 5, 5, 9⟩, ⟨200, 10, 10, 255⟩]) =
        crop (thresholdImg (Img.mk 2 2 [⟨5, 5, 5, 9⟩, ⟨5, 5, 5, 9⟩, ⟨5, 5, 5, 9⟩,
          ⟨200, 10, 10, 255⟩])) l t r b ∧
      (∀ p : Pixel, isContent p = true ↔ p ≠ zeroPixel) ∧
      (∀ x y, x < (Img.mk 2 2 [⟨5, 5, 5, 9⟩, ⟨5, 5, 5, 9⟩, ⟨5, 5, 5, 9⟩,
          ⟨200, 10, 10, 255⟩]).width →
        y < (Img.mk 2 2 [⟨5, 5, 5, 9⟩, ⟨5, 5, 5, 9⟩, ⟨5, 5, 5, 9⟩,
          ⟨200, 10, 10, 255⟩]).height →
        ¬(l ≤ x ∧ x < r ∧ t ≤ y ∧ y < b) →
        getpx (thresholdImg (Img.mk 2 2 [⟨5, 5, 5, 9⟩, ⟨5, 5, 5, 9⟩, ⟨5, 5, 5, 9⟩,
          ⟨200, 10, 10, 255⟩])) x y = zeroPixel) ∧
      ((∃ y, contentAt (thresholdImg (Img.mk 2 2 [⟨5, 5, 5, 9⟩, ⟨5, 5, 5, 9⟩, ⟨5, 5, 5, 9⟩,
          ⟨200, 10, 10, 255⟩])) l y) ∧
        (∃ y, contentAt (thresholdImg (Img.mk 2 2 [⟨5, 5, 5, 9⟩, ⟨5, 5, 5, 9⟩, ⟨5, 5, 5, 9⟩,
          ⟨200, 10, 10, 255⟩])) (r - 1) y) ∧
        (∃ x, contentAt (thresholdImg (Img.mk 2 2 [⟨5, 5, 5, 9⟩, ⟨5, 5, 5, 9⟩, ⟨5, 5, 5, 9⟩,
          ⟨200, 10, 10, 255⟩])) x t) ∧
        (∃ x, contentAt (thresholdImg (Img.mk 2 2 [⟨5, 5, 5, 9⟩, ⟨5, 5, 5, 9⟩, ⟨5, 5, 5, 9⟩,
          ⟨200, 10, 10, 255⟩])) x (b - 1))) ∧
      (∀ l' t' r' b',
        (∀ x y, contentAt (thresholdImg (Img.mk 2 2 [⟨5, 5, 5, 9⟩, ⟨5, 5, 5, 9⟩, ⟨5, 5, 5, 9⟩,
            ⟨200, 10, 10, 255⟩])) x y → l' ≤ x ∧ x < r' ∧ t' ≤ y ∧ y < b') →
        l' ≤ l ∧ t' ≤ t ∧ r ≤ r' ∧ b ≤ b')) :=
  ⟨by decide, crop_correct (Img.mk 2 2 [⟨5, 5, 5, 9⟩, ⟨5, 5, 5, 9⟩, ⟨5, 5, 5, 9⟩,
    ⟨200, 10, 10, 255⟩]) 1 1 (by decide)⟩

/-- Claim C4: idempotence — running the threshold-then-crop pipeline a second
time on the output of one run produces a buffer identical to that output; one
run reaches a fixed point of the pipeline. -/
theorem pipeline_idempotent (img : Img) : processImg (processImg img) = processImg img := by
  have hfixP : thresholdImg (processImg img) = processImg img :=
    thresholdImg_fix _ (fun p hp => processImg_data_fix img p hp)
  rcases h : getbbox (thresholdImg img) with _ | ⟨l, t, r, b⟩
  · have hP : processImg img = thresholdImg img := processImg_eq_of_none img h
    have hbbP : getbbox (thresholdImg (processImg img)) = none := by
      rw [hfixP, hP]
      exact h
    rw [processImg_eq_of_none _ hbbP, hfixP]
  · have hP : processImg img = crop (thresholdImg img) l t r b :=
      processImg_eq_of_some img l t r b h
    obtain ⟨R, B, hrR, hbB, ⟨y₁, hy₁⟩, ⟨y₂, hy₂⟩, ⟨x₁, hx₁⟩, ⟨x₂, hx₂⟩, hbound⟩ :=
      (getbbox_eq_some_iff _ l t r b).mp h
    have hlR : l ≤ R := (hbound l y₁ hy₁).2.1
    have htB : t ≤ B := (hbound x₁ t hx₁).2.2.2
    have hRW : R < (thresholdImg img).width := hy₂.1
    have hBH : B < (thresholdImg img).height := hx₂.2.1
    have hw' : (processImg img).width = r - l := by rw [hP]; rfl
    have hh' : (processImg img).height = b - t := by rw [hP]; rfl
    have hgetP : ∀ x y, x < r - l → y < b - t →
        getpx (processImg img) x y = getpx (thresholdImg img) (l + x) (t + y) := by
      intro x y hx hy
      rw [hP]
      exact getpx_crop (thresholdImg img) l t r b x y hx hy
    have hcontP : ∀ x y, x < r - l → y < b - t →
        (contentAt (processImg img) x y ↔
          isContent (getpx (thresholdImg img) (l + x) (t + y)) = true) := by
      intro x y hx hy
      constructor
      · rintro ⟨-, -, hcc⟩
        rwa [hgetP x y hx hy] at hcc
      · intro hcc
        exact ⟨by rw [hw']; exact hx, by rw [hh']; exact hy,
          by rw [hgetP x y hx hy]; exact hcc⟩
    have h0y : contentAt (processImg img) 0 (y₁ - t) := by
      have hb1 := hbound l y₁ hy₁
      refine (hcontP 0 (y₁ - t) (by omega) (by omega)).mpr ?_
      rw [show t + (y₁ - t) = y₁ by omega]
      exact hy₁.2.2
    have hRy : contentAt (processImg img) (R - l) (y₂ - t) := by
      have hb2 := hbound R y₂ hy₂
      refine (hcontP (R - l) (y₂ - t) (by omega) (by omega)).mpr ?_
      rw [show l + (R - l) = R by omega, show t + (y₂ - t) = y₂ by omega]
      exact hy₂.2.2
    have hx0 : contentAt (processImg img) (x₁ - l) 0 := by
      have hb3 := hbound x₁ t hx₁
      refine (hcontP (x₁ - l) 0 (by omega) (by omega)).mpr ?_
      rw [show l + (x₁ - l) = x₁ by omega]
      exact hx₁.2.2
    have hxB : contentAt (processImg img) (x₂ - l) (B - t) := by
      have hb4 := hbound x₂ B hx₂
      refine (hcontP (x₂ - l) (B - t) (by omega) (by omega)).mpr ?_
      rw [show l + (x₂ - l) = x₂ by omega, show t + (B - t) = B by omega]
      exact hx₂.2.2
    have hboundP : ∀ x y, contentAt (processImg img) x y →
        0 ≤ x ∧ x ≤ r - l - 1 ∧ 0 ≤ y ∧ y ≤ b - t - 1 := by
      intro x y hcc
      have hx : x < r - l := by
        have := hcc.1
        rwa [hw'] at this
      have hy : y < b - t := by
        have := hcc.2.1
        rwa [hh'] at this
      have hcT : isContent (getpx (thresholdImg img) (l + x) (t + y)) = true :=
        (hcontP x y hx hy).mp hcc
      have hcAt : contentAt (thresholdImg img) (l + x) (t + y) :=
        ⟨by omega, by omega, hcT⟩
      have hb5 := hbound (l + x) (t + y) hcAt
      exact ⟨Nat.zero_le _, by omega, Nat.zero_le _, by omega⟩
    have hbbP : getbbox (processImg img) =
        some (0, 0, (processImg img).width, (processImg img).height) := by
      rw [getbbox_eq_some_iff]
      refine ⟨r - l - 1, b - t - 1, by rw [hw']; omega, by rw [hh']; omega,
        ⟨y₁ - t, h0y⟩, ?_, ⟨x₁ - l, hx0⟩, ?_, hboundP⟩
      · rw [show r - l - 1 = R - l by omega]
        exact ⟨y₂ - t, hRy⟩
      · rw [show b - t - 1 = B - t by omega]
        exact ⟨x₂ - l, hxB⟩
    have hwfP : (processImg img).data.length =
        (processImg img).height * (processImg img).width := by
      rw [hP]
      exact length_mkGrid (r - l) (b - t) _
    have hbbP' : getbbox (thresholdImg (processImg img)) =
        some (0, 0, (processImg img).width, (processImg img).height) := by
      rw [hfixP]
      exact hbbP
    rw [processImg_eq_of_some _ _ _ _ _ hbbP', hfixP]
    exact crop_full _ hwfP

/-! ### Loader normalization model -/

/-- Modelled from the spec: a decoded source pixel before RGBA normalization,
one constructor per source channel layout named by the spec — grayscale,
3-channel RGB, palette (the palette entry already resolved to its RGB triple),
and 4-channel RGBA. -/
inductive SrcPixel where
  | gray (v : Nat)
  | rgb (r g b : Nat)
  | palette (r g b : Nat)
  | rgba (r g b a : Nat)
deriving DecidableEq, Repr

/-- Whether the source layout carries an alpha channel. -/
def hasAlpha : SrcPixel → Bool
  | SrcPixel.rgba _ _ _ _ => true
  | _ => false

/-- Modelled from the spec: the per-pixel effect of `img.convert("RGBA")` —
every source layout becomes a 4-channel RGBA pixel, and a source without an
alpha channel gains a fully-opaque alpha of 255. -/
def convertRGBA : SrcPixel → Pixel
  | SrcPixel.gray v => ⟨v, v, v, 255⟩
  | SrcPixel.rgb r g b => ⟨r, g, b, 255⟩
  | SrcPixel.palette r g b => ⟨r, g, b, 255⟩
  | SrcPixel.rgba r g b a => ⟨r, g, b, a⟩

/-! ### Whole-run model -/

/-- Outcome of one run of the script: argument lookup failure
(`sys.argv[1]`/`sys.argv[2]` raising), decode failure (`Image.open` raising),
encode failure (`img.save` raising, carrying the already-processed buffer to
record that processing completed first), or success. -/
inductive ProgResult where
  | usageError
  | decodeError
  | encodeError (processed : Img)
  | success (processed : Img)
deriving DecidableEq, Repr

/-- Exit status of the process: 0 on success, non-zero when an uncaught
exception terminates the run. -/
def exitCode : ProgResult → Nat
  | ProgResult.success _ => 0
  | _ => 1

/-- Modelled from the spec: one whole run of the script over an abstract file
system. `argv` is `sys.argv` (program name first); `decode` maps a path to the
RGBA image `Image.open(...).convert("RGBA")` yields, or `none` when the path is
missing or not a decodable image; `writable` says whether `img.save` can write
at the output path. The second component of the result is the at-most-one
file written by the run (path and final buffer); it stays `none` on every
error path, and the script writes only once, at the very end. -/
def runProgram (argv : List String) (decode : String → Option Img)
    (writable : String → Bool) : ProgResult × Option (String × Img) :=
  match argv[1]?, argv[2]? with
  | some inPath, some outPath =>
    match decode inPath with
    | none => (ProgResult.decodeError, none)
    | some img =>
      if writable outPath then (ProgResult.success (processImg img), some (outPath, processImg img))
      else (ProgResult.encodeError (processImg img), none)
  | _, _ => (ProgResult.usageError, none)

/-- Claim C7: decode failure atomicity — when the input path does not exist or
its content is not a decodable image, the run terminates with the decode error
and a non-zero status, and no output file is created or modified, whatever the
rest of the file system looks like. -/
theorem decode_error_atomic (a0 inPath outPath : String) (rest : List String)
    (decode : String → Option Img) (writable : String → Bool)
    (hdec : decode inPath = none) :
    runProgram (a0 :: inPath :: outPath :: rest) decode writable =
      (ProgResult.decodeError, none) ∧
    exitCode ProgResult.decodeError ≠ 0 := by
  constructor
  · unfold runProgram
    simp only [List.getElem?_cons_succ, List.getElem?_cons_zero, hdec]
  · decide

/-- Witness for C7: a file system with no decodable file at the input path. -/
theorem decode_error_atomic_witness :
    (fun _ : String => (none : Option Img)) "in.png" = none ∧
    (runProgram ["process_logo.py", "in.png", "out.png"]
        (fun _ => (none : Option Img)) (fun _ => true) =
      (ProgResult.decodeError, none) ∧
    exitCode ProgResult.decodeError ≠ 0) :=
  ⟨rfl, decode_error_atomic "process_logo.py" "in.png" "out.png" []
    (fun _ => (none : Option Img)) (fun _ => true) rfl⟩

/-- Claim C8: encode failure ordering — when the output path is not writable,
the run terminates with the encode error and a non-zero status; the error
carries the fully thresholded-and-cropped buffer (processing completed before
the failure), nothing is written to disk, and there is no retry: the model
writes at most once, at the end of the run. -/
theorem encode_error_after_processing (a0 inPath outPath : String) (rest : List String)
    (decode : String → Option Img) (writable : String → Bool) (img : Img)
    (hdec : decode inPath = some img) (hw : writable outPath = false) :
    runProgram (a0 :: inPath :: outPath :: rest) decode writable =
      (ProgResult.encodeError (processImg img), none) ∧
    exitCode (ProgResult.encodeError (processImg img)) ≠ 0 := by
  constructor
  · unfold runProgram
    simp only [List.getElem?_cons_succ, List.getElem?_cons_zero, hdec, hw]
    rfl
  · exact Nat.one_ne_zero

/-- Witness for C8: a decodable one-pixel input and an unwritable output path. -/
theorem encode_error_after_processing_witness :
    (fun _ : String => some (Img.mk 1 1 [⟨20, 0, 0, 5⟩])) "in.png" =
      some (Img.mk 1 1 [⟨20, 0, 0, 5⟩]) ∧
    (fun _ : String => false) "out.png" = false ∧
    (runProgram ["process_logo.py", "in.png", "out.png"]
        (fun _ => some (Img.mk 1 1 [⟨20, 0, 0, 5⟩])) (fun _ => false) =
      (ProgResult.encodeError (processImg (Img.mk 1 1 [⟨20, 0, 0, 5⟩])), none) ∧
    exitCode (ProgResult.encodeError (processImg (Img.mk 1 1 [⟨20, 0, 0, 5⟩]))) ≠ 0) :=
  ⟨rfl, rfl, encode_error_after_processing "process_logo.py" "in.png" "out.png" []
    (fun _ => some (Img.mk 1 1 [⟨20, 0, 0, 5⟩])) (fun _ => false)
    (Img.mk 1 1 [⟨20, 0, 0, 5⟩]) rfl rfl⟩

/-- Claim C9: loader normalization — every decoded source pixel becomes a
4-channel RGBA pixel, sources without an alpha channel (grayscale, 3-channel,
palette) gain a fully-opaque alpha of 255, and an RGBA source keeps its
channels unchanged. -/
theorem loader_normalizes :
    (∀ v, convertRGBA (SrcPixel.gray v) = ⟨v, v, v, 255⟩) ∧
    (∀ r g b, convertRGBA (SrcPixel.rgb r g b) = ⟨r, g, b, 255⟩) ∧
    (∀ r g b, convertRGBA (SrcPixel.palette r g b) = ⟨r, g, b, 255⟩) ∧
    (∀ r g b a, convertRGBA (SrcPixel.rgba r g b a) = ⟨r, g, b, a⟩) ∧
    (∀ s, hasAlpha s = false → (convertRGBA s).a = 255) := by
  refine ⟨fun v => rfl, fun r g b => rfl, fun r g b => rfl, fun r g b a => rfl, ?_⟩
  intro s hs
  cases s with
  | gray v => rfl
  | rgb r g b => rfl
  | palette r g b => rfl
  | rgba r g b a => exact absurd hs (by simp [hasAlpha])

/-- Witness for C9 at a concrete alphaless source pixel. -/
theorem loader_normalizes_witness :
    hasAlpha (SrcPixel.rgb 1 2 3) = false ∧
    (convertRGBA (SrcPixel.rgb 1 2 3)).a = 255 :=
  ⟨rfl, loader_normalizes.2.2.2.2 (SrcPixel.rgb 1 2 3) rfl⟩

/-- Claim C10: missing arguments — with fewer than two user arguments (fewer
than three entries in `sys.argv`, whose first entry is the program name) the
run terminates with an error and a non-zero status, independently of the file
system, so before opening the input and before touching any output; third and
later user arguments are ignored. -/
theorem missing_args_abort :
    (∀ (argv : List String) (decode : String → Option Img) (writable : String → Bool),
      argv.length < 3 →
      runProgram argv decode writable = (ProgResult.usageError, none)) ∧
    (∀ (a0 a1 a2 : String) (rest : List String) (decode : String → Option Img)
        (writable : String → Bool),
      runProgram (a0 :: a1 :: a2 :: rest) decode writable =
        runProgram [a0, a1, a2] decode writable) ∧
    exitCode ProgResult.usageError ≠ 0 := by
  refine ⟨?_, ?_, by decide⟩
  · intro argv decode writable hlen
    match argv with
    | [] => rfl
    | [a0] => rfl
    | [a0, a1] => rfl
    | a0 :: a1 :: a2 :: rest => exact absurd hlen (by simp)
  · intro a0 a1 a2 rest decode writable
    unfold runProgram
    simp only [List.getElem?_cons_succ, List.getElem?_cons_zero]

/-- Witness for C10: invoking with the program name alone aborts with the
usage error and writes nothing. -/
theorem missing_args_abort_witness :
    ([("process_logo.py" : String)].length < 3) ∧
    runProgram ["process_logo.py"] (fun _ => (none : Option Img)) (fun _ => true) =
      (ProgResult.usageError, none) :=
  ⟨by decide, missing_args_abort.1 ["process_logo.py"]
    (fun _ => (none : Option Img)) (fun _ => true) (by decide)⟩

end ProcessLogo
